import Mathlib

/-!
Shallow embedding of the BOM validation logic of
`supabase/functions/validate-bom/index.ts` (BOMIntelliCheck).

JavaScript objects with string values and JS `Map<string,string>` are both
modelled as insertion-ordered association lists `List (String × String)`:
`jsGet`/`jsHas`/`jsSet` have the observable semantics of property read,
`in`/`Map.has`, and property write / `Map.set` (overwrite in place, append
if absent).  JS number arithmetic is modelled over `ℚ`.
-/

namespace ValidateBom

/-- A JS object with string values / a JS `Map<string,string>`:
insertion-ordered association list. -/
abbrev StrMap := List (String × String)

/-- A parsed BOM row: field name to string value, in insertion order
(all values produced by `parseBoMFile` are strings). -/
abbrev BomEntry := StrMap

/-- `m.has(k)` / `k in obj`. -/
def jsHas (m : StrMap) (k : String) : Bool :=
  m.any (fun p => p.1 == k)

/-- `m.get(k)` / `obj[k]` (with `undefined` as `none`): value of the first
pair with key `k`. -/
def jsGet (m : StrMap) (k : String) : Option String :=
  (m.find? (fun p => p.1 == k)).map Prod.snd

/-- `m.set(k, v)` / `obj[k] = v`: overwrite the existing binding in place,
else append at the end. -/
def jsSet (m : StrMap) (k v : String) : StrMap :=
  if jsHas m k then m.map (fun p => if p.1 == k then (k, v) else p)
  else m ++ [(k, v)]

/-- `obj[k] = v` as a plain-object property ASSIGNMENT: it creates or
overwrites an own property, except that `__proto__` is an inherited accessor
of `Object.prototype`, so assigning a string to it invokes the setter, which
ignores non-object values: a silent no-op. -/
def jsSetProp (m : StrMap) (k v : String) : StrMap :=
  if k == "__proto__" then m else jsSet m k v

/-- `String.prototype.toLowerCase()` on the character range this code meets
(ASCII): lowercase every character of the string. -/
def jsToLower (s : String) : String :=
  String.mk (s.data.map Char.toLower)

/-- JS regexp `\s` on the characters this code can meet (ASCII whitespace). -/
def isWsChar (c : Char) : Bool :=
  c == ' ' || c == '\t' || c == '\n' || c == '\r' || c == '\x0b' || c == '\x0c'

/-- Worker for `String.prototype.split(/\s+/)`: a maximal whitespace run
separates tokens; a leading or trailing run yields an empty token.  `acc` is
the current token reversed, `inWs` says the previous character belonged to a
whitespace run whose token was already emitted. -/
def splitWsAux : List Char → List Char → Bool → List String
  | [], acc, _ => [String.mk acc.reverse]
  | c :: cs, acc, inWs =>
    if isWsChar c then
      if inWs then splitWsAux cs acc true
      else String.mk acc.reverse :: splitWsAux cs [] true
    else splitWsAux cs (c :: acc) false

/-- `value.split(/\s+/)`. -/
def jsSplitWs (s : String) : List String :=
  splitWsAux s.data [] false

/-- Worker for `String.prototype.split(sep)` with a one-character separator. -/
def splitChAux (c : Char) : List Char → List Char → List String
  | [], acc => [String.mk acc.reverse]
  | x :: xs, acc =>
    if x == c then String.mk acc.reverse :: splitChAux c xs []
    else splitChAux c xs (x :: acc)

/-- `s.split(sep)` for a one-character separator `sep`. -/
def jsSplitCh (c : Char) (s : String) : List String :=
  splitChAux c s.data []

/-- `String.prototype.trim()`: strip whitespace from both ends. -/
def jsTrim (s : String) : String :=
  String.mk (((s.data.dropWhile isWsChar).reverse.dropWhile isWsChar).reverse)

/-- `Array.prototype.join(sep)` for a one-character separator. -/
def joinCh (c : Char) : List String → String
  | [] => ""
  | [s] => s
  | s :: s2 :: rest => s ++ String.singleton c ++ joinCh c (s2 :: rest)

/--
```
function calculateQualityScore(totalIssues: number, totalEntries: number): number {
  if (totalEntries === 0) return 100;
  const issuesPerEntry = totalIssues / totalEntries;
  const baseScore = 100;
  const penalty = Math.min(issuesPerEntry * 10, 50);
  return Math.max(baseScore - penalty, 0);
}
```
(number arithmetic modelled over `ℚ`). -/
def calculateQualityScore (totalIssues totalEntries : ℕ) : ℚ :=
  if totalEntries = 0 then 100
  else
    let issuesPerEntry : ℚ := (totalIssues : ℚ) / (totalEntries : ℚ)
    let baseScore : ℚ := 100
    let penalty : ℚ := min (issuesPerEntry * 10) 50
    max (baseScore - penalty) 0

/-- One entry of a `parsed_content` array of a reference file of type
`dictionary`; absent fields are modelled as `""` (both are falsy in JS). -/
structure DictItem where
  incorrect : String
  correct : String
deriving DecidableEq, Repr

/-- A row of the `reference_files` table, restricted to the fields the
function reads; `parsed_content` is `none` when it is absent, null or not an
array. -/
structure RefFile where
  type : String
  parsed_content : Option (List DictItem)
deriving DecidableEq, Repr

/-- The hard-coded `commonTerms` array of `buildTerminologyDict`. -/
def commonTerms : List (String × String) :=
  [("Blad", "Blade"),
   ("Blad3", "Blade 3"),
   ("blde", "blade"),
   ("Hubm", "Hub"),
   ("Nacele", "Nacelle"),
   ("nacell", "nacelle"),
   ("Gearbox", "Gearbox"),
   ("grbx", "gearbox"),
   ("Generator", "Generator"),
   ("genrtr", "generator"),
   ("Rotor", "Rotor"),
   ("rotr", "rotor"),
   ("Tower", "Tower"),
   ("towr", "tower"),
   ("Foundation", "Foundation"),
   ("foundtn", "foundation"),
   ("Stator", "Stator"),
   ("Bearing", "Bearing"),
   ("brng", "bearing")]

/-- Body of the inner loop of `buildTerminologyDict`:
`if (item.incorrect && item.correct) dict.set(item.incorrect.toLowerCase(), item.correct)`. -/
def addDictItem (d : StrMap) (item : DictItem) : StrMap :=
  if item.incorrect != "" && item.correct != "" then
    jsSet d (jsToLower item.incorrect) item.correct
  else d

/-- Body of the outer loop of `buildTerminologyDict` over `referenceFiles`. -/
def addRefFile (d : StrMap) (file : RefFile) : StrMap :=
  if file.type == "dictionary" then
    match file.parsed_content with
    | some content => content.foldl addDictItem d
    | none => d
  else d

/--
```
function buildTerminologyDict(referenceFiles: any[]): Map<string, string> {
  const dict = new Map();
  for (const [wrong, correct] of commonTerms) dict.set(wrong.toLowerCase(), correct);
  for (const file of referenceFiles) { ... dict.set(item.incorrect.toLowerCase(), item.correct); ... }
  return dict;
}
``` -/
def buildTerminologyDict (referenceFiles : List RefFile) : StrMap :=
  referenceFiles.foldl addRefFile
    (commonTerms.foldl (fun d p => jsSet d (jsToLower p.1) p.2) [])

/-- The `(lowercased misspelling, canonical term)` pairs of the hard-coded
table, in insertion order. -/
def hardcodedPairs : List (String × String) :=
  commonTerms.map (fun p => (jsToLower p.1, p.2))

/-- The `(lowercased incorrect, correct)` pairs a single reference file
contributes to the dictionary, in insertion order. -/
def filePairs (file : RefFile) : List (String × String) :=
  if file.type == "dictionary" then
    match file.parsed_content with
    | some content =>
        content.filterMap (fun item =>
          if item.incorrect != "" && item.correct != "" then
            some (jsToLower item.incorrect, item.correct)
          else none)
    | none => []
  else []

/-- All pairs contributed by user-supplied dictionary records, in the order
the loops of `buildTerminologyDict` insert them. -/
def dictionaryPairs (files : List RefFile) : List (String × String) :=
  (files.map filePairs).flatten

/-- The value of the LAST pair with key `k` in `ps` (last write wins). -/
def lookupLast (ps : List (String × String)) (k : String) : Option String :=
  (ps.reverse.find? (fun p => p.1 == k)).map Prod.snd

/-- The static `spellingRules` table of `checkSpelling`. -/
def spellingRules : List (String × String) :=
  [("teh", "the"),
   ("adn", "and"),
   ("wieght", "weight"),
   ("lenght", "length"),
   ("widht", "width"),
   ("hieght", "height"),
   ("diamter", "diameter"),
   ("materail", "material"),
   ("aluminium", "aluminum")]

/-- The string-keyed members `Object.prototype` contributes to a plain-object
property read that misses every own key, paired with the string each value
coerces to when later joined or persisted (V8, which Deno uses, renders a
native function as `function NAME() \x7b [native code] \x7d`; the `__proto__`
getter returns `Object.prototype`, which renders as `[object Object]`).
Every one of these values is truthy.  Since the program looks keys up only
after lowercasing, only the all-lowercase names `constructor` and
`__proto__` are actually reachable; the rest are kept for completeness of
the property table. -/
def objectPrototypeMembers : List (String × String) :=
  [("constructor", "function Object() \x7b [native code] \x7d"),
   ("hasOwnProperty", "function hasOwnProperty() \x7b [native code] \x7d"),
   ("isPrototypeOf", "function isPrototypeOf() \x7b [native code] \x7d"),
   ("propertyIsEnumerable", "function propertyIsEnumerable() \x7b [native code] \x7d"),
   ("toLocaleString", "function toLocaleString() \x7b [native code] \x7d"),
   ("toString", "function toString() \x7b [native code] \x7d"),
   ("valueOf", "function valueOf() \x7b [native code] \x7d"),
   ("__defineGetter__", "function __defineGetter__() \x7b [native code] \x7d"),
   ("__defineSetter__", "function __defineSetter__() \x7b [native code] \x7d"),
   ("__lookupGetter__", "function __lookupGetter__() \x7b [native code] \x7d"),
   ("__lookupSetter__", "function __lookupSetter__() \x7b [native code] \x7d"),
   ("__proto__", "[object Object]")]

/--
```
function checkSpelling(word: string): { suggestion: string } | null {
  const lowerWord = word.toLowerCase();
  if (spellingRules[lowerWord]) return { suggestion: spellingRules[lowerWord] };
  return null;
}
```
`spellingRules[lowerWord]` is a plain-object property read: it finds an own
key of the nine-pair table first, and otherwise walks the prototype chain to
`Object.prototype`, whose members are all truthy, so those names also pass
the `if`; the inherited value is returned as the suggestion (modelled by the
string it coerces to when the caller joins or persists it). -/
def checkSpelling (word : String) : Option String :=
  match spellingRules.find? (fun p => p.1 == jsToLower word) with
  | some p => some p.2
  | none => (objectPrototypeMembers.find? (fun p => p.1 == jsToLower word)).map Prod.snd

/-- One recorded validation issue (the element type of
`ValidationResult.issues`). -/
structure Issue where
  type : String
  severity : String
  field : String
  original : String
  suggestion : String
  description : String
  autoCorrected : Bool
deriving DecidableEq, Repr

/-- The result record of `validateBomEntry`. -/
structure ValidationResult where
  entry : BomEntry
  issues : List Issue
  corrected : BomEntry
deriving DecidableEq, Repr

/-- The `requiredFields` array of `validateBomEntry`. -/
def requiredFields : List String :=
  ["partNumber", "partName", "description", "quantity"]

/-- The issue pushed for a missing required field. -/
def missingFieldIssue (field : String) : Issue :=
  { type := "missing_field", severity := "critical", field := field,
    original := "", suggestion := "[Required]",
    description := "Missing required field: " ++ field, autoCorrected := false }

/-- The issue pushed when a terminology correction changed a word. -/
def terminologyIssue (field word correction : String) : Issue :=
  { type := "terminology", severity := "medium", field := field,
    original := word, suggestion := correction,
    description := "Incorrect terminology: \x27" ++ word ++ "\x27 should be \x27" ++ correction ++ "\x27",
    autoCorrected := true }

/-- The issue pushed when `checkSpelling` fired on a word. -/
def spellingIssue (field word suggestion : String) : Issue :=
  { type := "spelling", severity := "low", field := field,
    original := word, suggestion := suggestion,
    description := "Possible spelling error: \x27" ++ word ++ "\x27",
    autoCorrected := true }

/-- `entry[field]` is truthy (with string values: present and non-empty). -/
def entryTruthy (e : BomEntry) (k : String) : Bool :=
  match jsGet e k with
  | some v => v != ""
  | none => false

/-- Body of the word loop of `validateBomEntry`: the corrected word pushed to
`correctedWords` and the issues pushed for this word (one or none). -/
def processWord (dict : StrMap) (field word : String) : String × List Issue :=
  let lowerWord := jsToLower word
  match jsGet dict lowerWord with
  | some correction =>
      if word != correction then (correction, [terminologyIssue field word correction])
      else (correction, [])
  | none =>
      match checkSpelling word with
      | some suggestion => (suggestion, [spellingIssue field word suggestion])
      | none => (word, [])

/-- The word loop of `validateBomEntry` over `value.split(/\s+/)`: returns
`correctedWords` and the issues pushed, in order.  `fieldCorrected` is true
exactly when the issue list is non-empty, since the loop sets it exactly when
it pushes an issue. -/
def processWords (dict : StrMap) (field : String) : List String → List String × List Issue
  | [] => ([], [])
  | w :: ws =>
    let cw := processWord dict field w
    let rest := processWords dict field ws
    (cw.1 :: rest.1, cw.2 ++ rest.2)

/-- Issues contributed by one `[field, value]` pair of `Object.entries(entry)`
(empty when the value is falsy). -/
def fieldIssues (dict : StrMap) (fv : String × String) : List Issue :=
  if fv.2 == "" then []
  else (processWords dict fv.1 (jsSplitWs fv.2)).2

/-- The required-field loop of `validateBomEntry`: one `missing_field` issue
per required field that is absent or empty, in the order of
`requiredFields`. -/
def missingFieldIssues (entry : BomEntry) : List Issue :=
  requiredFields.filterMap (fun f =>
    if entryTruthy entry f then none else some (missingFieldIssue f))

/-- Body of the field loop of `validateBomEntry`: threads the `corrected`
object and the `issues` array through one `[field, value]` pair. -/
def valStep (dict : StrMap) (acc : BomEntry × List Issue) (fv : String × String) :
    BomEntry × List Issue :=
  if fv.2 == "" then acc
  else
    let r := processWords dict fv.1 (jsSplitWs fv.2)
    let fieldCorrected := !r.2.isEmpty
    ((if fieldCorrected then jsSet acc.1 fv.1 (joinCh ' ' r.1) else acc.1),
     acc.2 ++ r.2)

/--
```
async function validateBomEntry(entry, terminologyDict): Promise<ValidationResult> {
  const issues = [];
  const corrected = { ...entry };
  for (const field of requiredFields) { if (!entry[field] || entry[field] === '') issues.push(...missing_field...); }
  for (const [field, value] of Object.entries(entry)) { ...word loop..., if (fieldCorrected) corrected[field] = correctedWords.join(' '); }
  return { entry, issues, corrected };
}
```
The function awaits nothing; its body is synchronous and pure. -/
def validateBomEntry (entry : BomEntry) (terminologyDict : StrMap) : ValidationResult :=
  let missing := missingFieldIssues entry
  let r := entry.foldl (valStep terminologyDict) (entry, [])
  { entry := entry, issues := missing ++ r.2, corrected := r.1 }

/-- Token substitution as the amended claim words it: a lowercased token
found in the terminology map gives the mapped canonical term; else a token
whose lowercasing the plain-object read `spellingRules[lowerWord]` finds —
an own key of the nine-pair table, or an inherited truthy member of
`Object.prototype` such as `constructor` or `__proto__` — gives that value
as the suggestion; else the token is unchanged. -/
def specTokenSubst (dict : StrMap) (w : String) : String :=
  match jsGet dict (jsToLower w) with
  | some correction => correction
  | none =>
      match checkSpelling w with
      | some suggestion => suggestion
      | none => w

/-- `headers.forEach((header, index) => { entry[header] = values[index] || ''; })`,
written as a lockstep recursion: header number `i` receives value number `i`,
and `''` when the value array is exhausted (`undefined || ''`); a falsy `''`
value also stays `''`.  The store is a plain-object assignment (`jsSetProp`),
so a `__proto__` header is silently dropped. -/
def buildRow : List String → List String → BomEntry → BomEntry
  | [], _, e => e
  | h :: hs, [], e => buildRow hs [] (jsSetProp e h "")
  | h :: hs, v :: vs, e => buildRow hs vs (jsSetProp e h v)

/--
```
function parseBoMFile(content: string, filename: string): BomEntry[] {
  const lines = content.split('\n').filter(line => line.trim());
  if (lines.length === 0) return [];
  const headers = lines[0].split(',').map(h => h.trim());
  for (let i = 1; i < lines.length; i++) {
    const values = lines[i].split(',').map(v => v.trim());
    const entry = {}; headers.forEach((header, index) => entry[header] = values[index] || '');
    entries.push(entry);
  }
  return entries;
}
``` -/
def parseBoMFile (content : String) (filename : String) : List BomEntry :=
  let lines := (jsSplitCh '\n' content).filter (fun line => jsTrim line != "")
  match lines with
  | [] => []
  | headerLine :: rest =>
    let headers := (jsSplitCh ',' headerLine).map jsTrim
    rest.map (fun line =>
      let values := (jsSplitCh ',' line).map jsTrim
      buildRow headers values [])

/--
```
function generateCSV(entries: BomEntry[]): string {
  if (entries.length === 0) return '';
  const headers = Object.keys(entries[0]);
  const csvLines = [headers.join(',')];
  for (const entry of entries) csvLines.push(headers.map(h => entry[h] || '').join(','));
  return csvLines.join('\n');
}
``` -/
def generateCSV (entries : List BomEntry) : String :=
  match entries with
  | [] => ""
  | e0 :: _ =>
    let headers := e0.map Prod.fst
    let csvLines := joinCh ',' headers ::
      entries.map (fun e => joinCh ',' (headers.map (fun h => (jsGet e h).getD "")))
    joinCh '\n' csvLines

/-- The HTTP request as the handler observes it: `body` is `none` when the
body is not valid JSON, else `some cid?` where `cid?` is the `checkId`
member (`none` when absent or null).  `consumed` tracks `Request.bodyUsed`:
the Fetch body is a one-shot stream. -/
structure RequestState where
  body : Option (Option String)
  consumed : Bool
deriving DecidableEq, Repr

/-- `await req.json()`: rejects when the body was already consumed, rejects on
invalid JSON, and in every case the body counts as used afterwards. -/
def reqJson (r : RequestState) : Except String (Option String) × RequestState :=
  if r.consumed then (Except.error "Body already consumed", r)
  else
    match r.body with
    | none => (Except.error "invalid json", { r with consumed := true })
    | some cid => (Except.ok cid, { r with consumed := true })

/-- `supabase.from('bom_checks').update({ status }).eq('id', id)` restricted
to the status column: rows are `(id, status)` pairs. -/
def updateStatus (checks : List (String × String)) (id status : String) :
    List (String × String) :=
  checks.map (fun p => if p.1 == id then (p.1, status) else p)

/-- The observable outcome of one handler invocation: the `bom_checks`
rows and the HTTP status of the response. -/
structure HandlerOutcome where
  checks : List (String × String)
  responseStatus : Nat
deriving DecidableEq, Repr

/-- The `catch` block of the handler:
```
const { checkId } = await req.json().catch(() => ({ checkId: null }));
if (checkId) await supabase.from('bom_checks').update({ status: 'failed' }).eq('id', checkId);
return new Response(JSON.stringify({ error }), { status: 500, ... });
``` -/
def runCatch (req : RequestState) (checks : List (String × String)) : HandlerOutcome :=
  let r := reqJson req
  let cid :=
    match r.1 with
    | Except.ok c => c
    | Except.error _ => none
  match cid with
  | some id => { checks := updateStatus checks id "failed", responseStatus := 500 }
  | none => { checks := checks, responseStatus := 500 }

/-- The `Deno.serve` handler of `validate-bom`, restricted to what it does to
the request body and the `status` column of `bom_checks`.  `processingFails`
abstracts every await between the `'processing'` update and the final
`'completed'` update (row fetch, storage download, inserts, upload) throwing;
the database and storage effects other than the status column are dropped.
Control flow, the order of the two `req.json()` reads included, follows the
source. -/
def validateBomHandler (req0 : RequestState) (processingFails : Bool)
    (checks0 : List (String × String)) : HandlerOutcome :=
  let r1 := reqJson req0
  match r1.1 with
  | Except.error _ => runCatch r1.2 checks0
  | Except.ok none => runCatch r1.2 checks0
  | Except.ok (some checkId) =>
    let checks1 := updateStatus checks0 checkId "processing"
    if processingFails then runCatch r1.2 checks1
    else { checks := updateStatus checks1 checkId "completed", responseStatus := 200 }

/-! ## Lemmas about the JS map model -/

theorem find?_replace_self (m : StrMap) (k v : String) (h : jsHas m k = true) :
    List.find? (fun p => p.1 == k) (m.map (fun p => if p.1 == k then (k, v) else p)) =
      some (k, v) := by
  induction m with
  | nil => simp [jsHas] at h
  | cons p m ih =>
    rw [List.map_cons]
    by_cases hp : (p.1 == k) = true
    · rw [if_pos hp]
      simp [List.find?_cons]
    · have hp2 : (p.1 == k) = false := by simpa using hp
      rw [if_neg hp]
      rw [List.find?_cons, hp2]
      apply ih
      simp only [jsHas, List.any_cons, hp2, Bool.false_or] at h
      exact h

theorem jsGet_replace_self (m : StrMap) (k v : String) (h : jsHas m k = true) :
    jsGet (m.map (fun p => if p.1 == k then (k, v) else p)) k = some v := by
  unfold jsGet
  rw [find?_replace_self m k v h]
  rfl

theorem find?_replace_ne (m : StrMap) (k v k2 : String) (hne : k2 ≠ k) :
    List.find? (fun p => p.1 == k2) (m.map (fun p => if p.1 == k then (k, v) else p)) =
      List.find? (fun p => p.1 == k2) m := by
  induction m with
  | nil => rfl
  | cons p m ih =>
    rw [List.map_cons]
    by_cases hp : (p.1 == k) = true
    · have hp2 : p.1 = k := by simpa using hp
      have hk : ((k : String) == k2) = false := by simp [Ne.symm hne]
      have hk2 : (p.1 == k2) = false := by simp [hp2, Ne.symm hne]
      rw [if_pos hp, List.find?_cons, List.find?_cons]
      simp only [hk, hk2]
      exact ih
    · rw [if_neg hp, List.find?_cons, List.find?_cons]
      cases hq : (p.1 == k2) with
      | true => rfl
      | false => exact ih

theorem jsGet_replace_ne (m : StrMap) (k v k2 : String) (hne : k2 ≠ k) :
    jsGet (m.map (fun p => if p.1 == k then (k, v) else p)) k2 = jsGet m k2 := by
  unfold jsGet
  rw [find?_replace_ne m k v k2 hne]

theorem find?_none_of_not_has (m : StrMap) (k : String) (h : jsHas m k = false) :
    m.find? (fun p => p.1 == k) = none := by
  rw [List.find?_eq_none]
  intro p hp
  simp only [jsHas, List.any_eq_false] at h
  exact h p hp

theorem jsGet_jsSet (m : StrMap) (k v k2 : String) :
    jsGet (jsSet m k v) k2 = if k2 = k then some v else jsGet m k2 := by
  unfold jsSet
  by_cases h : jsHas m k
  · rw [if_pos h]
    by_cases he : k2 = k
    · subst he
      rw [if_pos rfl]
      exact jsGet_replace_self m k2 v h
    · rw [if_neg he]
      exact jsGet_replace_ne m k v k2 he
  · rw [if_neg h]
    unfold jsGet
    rw [List.find?_append]
    by_cases he : k2 = k
    · subst he
      rw [find?_none_of_not_has m k2 (by simpa using h)]
      simp [List.find?_cons]
    · have : (k == k2) = false := by simp [Ne.symm he]
      simp [List.find?_cons, this, if_neg he]

theorem find?_singleton (p : String × String) (k : String) :
    List.find? (fun q => q.1 == k) [p] = if p.1 == k then some p else none := by
  rw [List.find?_cons]
  cases hb : (p.1 == k) with
  | true => rfl
  | false => rfl

theorem lookupLast_cons (p : String × String) (ps : List (String × String)) (k : String) :
    lookupLast (p :: ps) k =
      (lookupLast ps k).or (if p.1 == k then some p.2 else none) := by
  unfold lookupLast
  rw [List.reverse_cons, List.find?_append, find?_singleton]
  cases hl : ps.reverse.find? (fun q => q.1 == k) with
  | none =>
    simp only [Option.none_or]
    cases hb : (p.1 == k) with
    | true => simp [hb]
    | false => simp [hb]
  | some q => simp

theorem lookupLast_append (a b : List (String × String)) (k : String) :
    lookupLast (a ++ b) k = (lookupLast b k).or (lookupLast a k) := by
  unfold lookupLast
  rw [List.reverse_append, List.find?_append]
  cases hb : b.reverse.find? (fun q => q.1 == k) with
  | none => simp
  | some q => simp

theorem foldl_jsSet_get (ps : List (String × String)) (d : StrMap) (k : String) :
    jsGet (ps.foldl (fun d p => jsSet d p.1 p.2) d) k =
      (lookupLast ps k).or (jsGet d k) := by
  induction ps generalizing d with
  | nil => simp [lookupLast]
  | cons p ps ih =>
    rw [List.foldl_cons, ih, lookupLast_cons]
    cases hl : lookupLast ps k with
    | some q => simp [Option.or]
    | none =>
      simp only [Option.or]
      rw [jsGet_jsSet]
      by_cases he : k = p.1
      · simp [he]
      · have : (p.1 == k) = false := by simp [Ne.symm he]
        simp [he, this]

/-! ## Characterization of `buildTerminologyDict` (claims C5 and C10) -/

theorem fold_addDictItem (content : List DictItem) (d : StrMap) :
    content.foldl addDictItem d =
      (content.filterMap (fun item =>
        if item.incorrect != "" && item.correct != "" then
          some (jsToLower item.incorrect, item.correct)
        else none)).foldl (fun d p => jsSet d p.1 p.2) d := by
  induction content generalizing d with
  | nil => rfl
  | cons item content ih =>
    rw [List.foldl_cons, List.filterMap_cons]
    by_cases hc : (item.incorrect != "" && item.correct != "") = true
    · rw [if_pos hc]
      unfold addDictItem
      rw [if_pos hc, List.foldl_cons]
      exact ih _
    · rw [if_neg hc]
      unfold addDictItem
      rw [if_neg hc]
      exact ih d

theorem addRefFile_eq (d : StrMap) (file : RefFile) :
    addRefFile d file = (filePairs file).foldl (fun d p => jsSet d p.1 p.2) d := by
  unfold addRefFile filePairs
  by_cases ht : (file.type == "dictionary") = true
  · rw [if_pos ht, if_pos ht]
    cases file.parsed_content with
    | none => rfl
    | some content => exact fold_addDictItem content d
  · rw [if_neg ht, if_neg ht]
    rfl

theorem foldl_addRefFile_eq (files : List RefFile) (d : StrMap) :
    files.foldl addRefFile d =
      (dictionaryPairs files).foldl (fun d p => jsSet d p.1 p.2) d := by
  induction files generalizing d with
  | nil => rfl
  | cons file files ih =>
    rw [List.foldl_cons, addRefFile_eq]
    unfold dictionaryPairs
    rw [List.map_cons, List.flatten_cons, List.foldl_append]
    exact ih _

theorem buildTerminologyDict_get (files : List RefFile) (k : String) :
    jsGet (buildTerminologyDict files) k =
      lookupLast (hardcodedPairs ++ dictionaryPairs files) k := by
  unfold buildTerminologyDict
  have hhard : commonTerms.foldl (fun d p => jsSet d (jsToLower p.1) p.2) ([] : StrMap) =
      hardcodedPairs.foldl (fun d p => jsSet d p.1 p.2) [] := by
    unfold hardcodedPairs
    rw [List.foldl_map]
  rw [hhard, foldl_addRefFile_eq, ← List.foldl_append, foldl_jsSet_get]
  have : jsGet ([] : StrMap) k = none := rfl
  rw [this, Option.or_none]

/-- Counterexample to C5 as stated: with a user dictionary record mapping
`Blad` to `XYZ`, the built map sends the lowercased hard-coded misspelling
`blad` to `XYZ`, not to its hard-coded canonical term `Blade`, although
`(Blad, Blade)` is one of the hard-coded correction pairs. -/
theorem c5_counterexample :
    ("Blad", "Blade") ∈ commonTerms
    ∧ jsGet (buildTerminologyDict
        [{ type := "dictionary",
           parsed_content := some [{ incorrect := "Blad", correct := "XYZ" }] }])
        (jsToLower "Blad") = some "XYZ" := by
  constructor
  · decide
  · rfl

/-- C5 (amended): the map `buildTerminologyDict` returns is exactly
last-write-wins over the hard-coded pairs followed by the user dictionary
pairs: a key maps to the `correct` value of the last qualifying dictionary
item whose lowercased `incorrect` equals it, or, if there is none, to the
canonical term of the hard-coded pair with that lowercased misspelling; keys
of neither kind are absent. -/
theorem c5_amended (files : List RefFile) (k : String) :
    jsGet (buildTerminologyDict files) k =
      lookupLast (hardcodedPairs ++ dictionaryPairs files) k :=
  buildTerminologyDict_get files k

/-- C10: user-supplied dictionary records take precedence: whenever the
lowercased `incorrect` key of a qualifying dictionary record collides with a
hard-coded misspelling, the built map returns the user value (the last
user-supplied binding for that key), not the hard-coded canonical term. -/
theorem c10_user_precedence (files : List RefFile) (k v : String)
    (hcollide : k ∈ hardcodedPairs.map Prod.fst)
    (huser : lookupLast (dictionaryPairs files) k = some v) :
    jsGet (buildTerminologyDict files) k = some v := by
  rw [buildTerminologyDict_get, lookupLast_append, huser, Option.or_some]

/-- Witness for C10: the record `(Blad, XYZ)` collides with the hard-coded
pair `(blad, Blade)` and wins. -/
theorem c10_witness :
    jsGet (buildTerminologyDict
        [{ type := "dictionary",
           parsed_content := some [{ incorrect := "Blad", correct := "XYZ" }] }])
      "blad" = some "XYZ" :=
  c10_user_precedence
    [{ type := "dictionary",
       parsed_content := some [{ incorrect := "Blad", correct := "XYZ" }] }]
    "blad" "XYZ" (by decide) (by decide)

/-! ## The quality score (claims C2 and C8) -/

theorem calculateQualityScore_eq (totalIssues totalEntries : ℕ)
    (h : totalEntries ≠ 0) :
    calculateQualityScore totalIssues totalEntries =
      100 - min ((totalIssues : ℚ) / (totalEntries : ℚ) * 10) 50 := by
  unfold calculateQualityScore
  rw [if_neg h]
  have h1 : min ((totalIssues : ℚ) / (totalEntries : ℚ) * 10) 50 ≤ 50 :=
    min_le_right _ _
  have h2 : (0 : ℚ) ≤ 100 - min ((totalIssues : ℚ) / (totalEntries : ℚ) * 10) 50 := by
    linarith
  simp only []
  rw [max_eq_left h2]

/-- Counterexample to C2 as stated: at 6 issues over 1 entry the function
returns 50 (the penalty is capped at 50), while `100 - 10 * (6 / 1) = 40`. -/
theorem c2_counterexample :
    calculateQualityScore 6 1 ≠ 100 - 10 * ((6 : ℚ) / (1 : ℚ)) := by
  unfold calculateQualityScore
  norm_num

/-- C2 (amended): for totalEntries > 0, `calculateQualityScore` returns
100 minus the linear penalty `10 * (totalIssues / totalEntries)` capped at
50, i.e. `100 - min(10 * totalIssues / totalEntries, 50)`. -/
theorem c2_amended (totalIssues totalEntries : ℕ) (h : 0 < totalEntries) :
    calculateQualityScore totalIssues totalEntries =
      100 - min ((totalIssues : ℚ) / (totalEntries : ℚ) * 10) 50 :=
  calculateQualityScore_eq totalIssues totalEntries (Nat.pos_iff_ne_zero.mp h)

/-- Witness for C2 (amended) at 6 issues over 1 entry. -/
theorem c2_amended_witness :
    calculateQualityScore 6 1 = 100 - min ((6 : ℚ) / (1 : ℚ) * 10) 50 :=
  c2_amended 6 1 (by norm_num)

/-- C8: `calculateQualityScore(i, 0) = 100`; for positive entry counts the
score lies in `[50, 100]` and is monotonically non-increasing in the issue
count. -/
theorem c8_score_bounds :
    (∀ i : ℕ, calculateQualityScore i 0 = 100)
    ∧ (∀ i e : ℕ, 0 < e →
        50 ≤ calculateQualityScore i e ∧ calculateQualityScore i e ≤ 100)
    ∧ (∀ i j e : ℕ, 0 < e → i ≤ j →
        calculateQualityScore j e ≤ calculateQualityScore i e) := by
  refine ⟨fun i => by simp [calculateQualityScore], ?_, ?_⟩
  · intro i e he
    rw [calculateQualityScore_eq i e (Nat.pos_iff_ne_zero.mp he)]
    have h1 : min ((i : ℚ) / (e : ℚ) * 10) 50 ≤ 50 := min_le_right _ _
    have h2 : (0 : ℚ) ≤ min ((i : ℚ) / (e : ℚ) * 10) 50 := by
      apply le_min _ (by norm_num)
      positivity
    constructor <;> linarith
  · intro i j e he hij
    rw [calculateQualityScore_eq i e (Nat.pos_iff_ne_zero.mp he),
      calculateQualityScore_eq j e (Nat.pos_iff_ne_zero.mp he)]
    have hde : (0 : ℚ) ≤ (e : ℚ) := by positivity
    have hcast : (i : ℚ) ≤ (j : ℚ) := by exact_mod_cast hij
    have h1 : (i : ℚ) / (e : ℚ) * 10 ≤ (j : ℚ) / (e : ℚ) * 10 := by gcongr
    have h2 : min ((i : ℚ) / (e : ℚ) * 10) 50 ≤ min ((j : ℚ) / (e : ℚ) * 10) 50 :=
      min_le_min h1 le_rfl
    linarith

/-- Witness for C8 at concrete inputs. -/
theorem c8_witness :
    calculateQualityScore 7 0 = 100
    ∧ (50 ≤ calculateQualityScore 7 2 ∧ calculateQualityScore 7 2 ≤ 100)
    ∧ calculateQualityScore 9 2 ≤ calculateQualityScore 7 2 :=
  ⟨c8_score_bounds.1 7,
   c8_score_bounds.2.1 7 2 (by norm_num),
   c8_score_bounds.2.2 7 9 2 (by norm_num) (by norm_num)⟩

/-! ## Determinism (claim C6) -/

/-- C6: `validateBomEntry` is deterministic: equal input entries and equal
terminology maps give the same annotated entry, the same issue list in the
same order, and the same corrected entry. -/
theorem c6_deterministic (e1 e2 : BomEntry) (d1 d2 : StrMap)
    (he : e1 = e2) (hd : d1 = d2) :
    (validateBomEntry e1 d1).entry = (validateBomEntry e2 d2).entry
    ∧ (validateBomEntry e1 d1).issues = (validateBomEntry e2 d2).issues
    ∧ (validateBomEntry e1 d1).corrected = (validateBomEntry e2 d2).corrected := by
  subst he
  subst hd
  exact ⟨rfl, rfl, rfl⟩

/-- Witness for C6 at a concrete entry and dictionary. -/
theorem c6_witness :
    (validateBomEntry [("partNumber", "PN1")] [("blad", "Blade")]).entry =
      (validateBomEntry [("partNumber", "PN1")] [("blad", "Blade")]).entry
    ∧ (validateBomEntry [("partNumber", "PN1")] [("blad", "Blade")]).issues =
      (validateBomEntry [("partNumber", "PN1")] [("blad", "Blade")]).issues
    ∧ (validateBomEntry [("partNumber", "PN1")] [("blad", "Blade")]).corrected =
      (validateBomEntry [("partNumber", "PN1")] [("blad", "Blade")]).corrected :=
  c6_deterministic [("partNumber", "PN1")] [("partNumber", "PN1")]
    [("blad", "Blade")] [("blad", "Blade")] rfl rfl

/-! ## The failure path of the handler (claim C1) -/

/-- C1 names a real bug: the `catch` block re-reads `req.json()`, but the
request body was already consumed by the first read, so the re-read rejects,
`checkId` falls back to `null`, and the `'failed'` update is skipped.  At a
request whose body carries `checkId = "chk1"` and whose processing fails
after the `'processing'` update, the record keeps status `'processing'` and
is never set to `'failed'`, although the 500 response is still returned. -/
theorem c1_code_bug :
    validateBomHandler { body := some (some "chk1"), consumed := false } true
        [("chk1", "pending")] =
      { checks := [("chk1", "processing")], responseStatus := 500 }
    ∧ jsGet (validateBomHandler { body := some (some "chk1"), consumed := false }
        true [("chk1", "pending")]).checks "chk1" ≠ some "failed" := by
  constructor
  · rfl
  · decide

/-! ## Lemmas about the word loop of `validateBomEntry` -/

theorem checkSpelling_ne (w s : String) (h : checkSpelling w = some s) : s ≠ w := by
  unfold checkSpelling at h
  cases hf : spellingRules.find? (fun p => p.1 == jsToLower w) with
  | some p =>
    rw [hf] at h
    have hs : s = p.2 := by simpa using h.symm
    have hkey : p.1 = jsToLower w := by simpa using List.find?_some hf
    have hmem : p ∈ spellingRules := List.mem_of_find?_eq_some hf
    have hfact : ∀ q ∈ spellingRules, ¬ jsToLower q.2 = q.1 := by decide
    intro hcontra
    apply hfact p hmem
    rw [hs] at hcontra
    rw [hcontra]
    exact hkey.symm
  | none =>
    rw [hf] at h
    cases hg : objectPrototypeMembers.find? (fun p => p.1 == jsToLower w) with
    | none =>
      rw [hg] at h
      simp at h
    | some q =>
      rw [hg] at h
      have hs : s = q.2 := by simpa using h.symm
      have hkey : q.1 = jsToLower w := by simpa using List.find?_some hg
      have hmem : q ∈ objectPrototypeMembers := List.mem_of_find?_eq_some hg
      have hfact : ∀ q ∈ objectPrototypeMembers, ¬ jsToLower q.2 = q.1 := by decide
      intro hcontra
      apply hfact q hmem
      rw [hs] at hcontra
      rw [hcontra]
      exact hkey.symm

theorem processWord_fst (d : StrMap) (f w : String) :
    (processWord d f w).1 = specTokenSubst d w := by
  unfold processWord specTokenSubst
  cases h : jsGet d (jsToLower w) with
  | some c =>
    simp only [h]
    by_cases hc : (w != c) = true
    · rw [if_pos hc]
    · rw [if_neg hc]
  | none =>
    simp only [h]
    cases hs : checkSpelling w <;> rfl

theorem processWord_issues (d : StrMap) (f w : String) :
    ∀ i ∈ (processWord d f w).2,
      i.field = f ∧ i.autoCorrected = true
      ∧ (i.type = "terminology" ∨ i.type = "spelling") := by
  intro i hi
  unfold processWord at hi
  cases h : jsGet d (jsToLower w) with
  | some c =>
    simp only [h] at hi
    by_cases hc : (w != c) = true
    · rw [if_pos hc] at hi
      have : i = terminologyIssue f w c := by simpa using hi
      subst this
      exact ⟨rfl, rfl, Or.inl rfl⟩
    · rw [if_neg hc] at hi
      simp at hi
  | none =>
    simp only [h] at hi
    cases hs : checkSpelling w with
    | some sug =>
      rw [hs] at hi
      have : i = spellingIssue f w sug := by simpa using hi
      subst this
      exact ⟨rfl, rfl, Or.inr rfl⟩
    | none =>
      rw [hs] at hi
      simp at hi

theorem processWord_pairs (d : StrMap) (f w : String) :
    (processWord d f w).2.map (fun i => (i.original, i.suggestion, i.field)) =
      if specTokenSubst d w ≠ w then [(w, specTokenSubst d w, f)] else [] := by
  unfold processWord specTokenSubst
  cases h : jsGet d (jsToLower w) with
  | some c =>
    simp only [h]
    by_cases hc : (w != c) = true
    · have hne : c ≠ w := by
        intro he
        subst he
        simp at hc
      rw [if_pos hc, if_pos hne]
      rfl
    · have heq : c = w := by
        have : w = c := by simpa using hc
        exact this.symm
      rw [if_neg hc, if_neg (by simp [heq])]
      rfl
  | none =>
    simp only [h]
    cases hs : checkSpelling w with
    | some sug =>
      rw [if_pos (checkSpelling_ne w sug hs)]
      rfl
    | none =>
      rw [if_neg (by simp)]
      rfl

theorem processWords_fst (d : StrMap) (f : String) (ws : List String) :
    (processWords d f ws).1 = ws.map (specTokenSubst d) := by
  induction ws with
  | nil => rfl
  | cons w ws ih =>
    unfold processWords
    rw [List.map_cons]
    simp only []
    rw [processWord_fst, ih]

theorem processWords_pairs (d : StrMap) (f : String) (ws : List String) :
    (processWords d f ws).2.map (fun i => (i.original, i.suggestion, i.field)) =
      ws.filterMap (fun w =>
        if specTokenSubst d w ≠ w then some (w, specTokenSubst d w, f) else none) := by
  induction ws with
  | nil => rfl
  | cons w ws ih =>
    unfold processWords
    rw [List.filterMap_cons]
    simp only [List.map_append]
    rw [processWord_pairs, ih]
    by_cases hc : specTokenSubst d w ≠ w
    · rw [if_pos hc, if_pos hc]
      rfl
    · rw [if_neg hc, if_neg hc]
      rfl

theorem processWords_issues (d : StrMap) (f : String) (ws : List String) :
    ∀ i ∈ (processWords d f ws).2,
      i.field = f ∧ i.autoCorrected = true
      ∧ (i.type = "terminology" ∨ i.type = "spelling") := by
  induction ws with
  | nil => intro i hi; simp [processWords] at hi
  | cons w ws ih =>
    intro i hi
    unfold processWords at hi
    simp only [List.mem_append] at hi
    rcases hi with hi | hi
    · exact processWord_issues d f w i hi
    · exact ih i hi

theorem fieldIssues_issues (d : StrMap) (fv : String × String) :
    ∀ i ∈ fieldIssues d fv,
      i.field = fv.1 ∧ i.autoCorrected = true
      ∧ (i.type = "terminology" ∨ i.type = "spelling") := by
  intro i hi
  unfold fieldIssues at hi
  by_cases hv : (fv.2 == "") = true
  · rw [if_pos hv] at hi
    simp at hi
  · rw [if_neg hv] at hi
    exact processWords_issues d fv.1 (jsSplitWs fv.2) i hi

theorem valStep_snd (d : StrMap) (acc : BomEntry × List Issue) (fv : String × String) :
    (valStep d acc fv).2 = acc.2 ++ fieldIssues d fv := by
  unfold valStep fieldIssues
  by_cases hv : (fv.2 == "") = true
  · rw [if_pos hv, if_pos hv, List.append_nil]
  · rw [if_neg hv, if_neg hv]

theorem valStep_fst (d : StrMap) (acc : BomEntry × List Issue) (fv : String × String) :
    (valStep d acc fv).1 =
      if (fieldIssues d fv).isEmpty then acc.1
      else jsSet acc.1 fv.1 (joinCh ' ' (processWords d fv.1 (jsSplitWs fv.2)).1) := by
  unfold valStep fieldIssues
  by_cases hv : (fv.2 == "") = true
  · rw [if_pos hv, if_pos hv]
    rfl
  · rw [if_neg hv, if_neg hv]
    by_cases he : (processWords d fv.1 (jsSplitWs fv.2)).2.isEmpty
    · rw [if_pos he]
      simp [he]
    · rw [if_neg he]
      simp [he]

theorem valLoop_snd (d : StrMap) (fields : List (String × String))
    (c : BomEntry) (iss : List Issue) :
    (fields.foldl (valStep d) (c, iss)).2 =
      iss ++ (fields.map (fieldIssues d)).flatten := by
  induction fields generalizing c iss with
  | nil => simp
  | cons fv fields ih =>
    rw [List.foldl_cons, List.map_cons, List.flatten_cons]
    have hstep : valStep d (c, iss) fv =
        ((valStep d (c, iss) fv).1, iss ++ fieldIssues d fv) := by
      rw [← valStep_snd d (c, iss) fv]
    rw [hstep, ih, List.append_assoc]

theorem valLoop_fst (d : StrMap) (fields : List (String × String))
    (c : BomEntry) (iss : List Issue) (f : String)
    (h : ∀ i ∈ (fields.map (fieldIssues d)).flatten,
      ¬(i.autoCorrected = true ∧ i.field = f)) :
    jsGet (fields.foldl (valStep d) (c, iss)).1 f = jsGet c f := by
  induction fields generalizing c iss with
  | nil => rfl
  | cons fv fields ih =>
    rw [List.foldl_cons]
    have hsplit : ∀ i ∈ (fields.map (fieldIssues d)).flatten,
        ¬(i.autoCorrected = true ∧ i.field = f) := by
      intro i hi
      exact h i (by rw [List.map_cons, List.flatten_cons]; exact List.mem_append_right _ hi)
    have hcur : jsGet (valStep d (c, iss) fv).1 f = jsGet c f := by
      rw [valStep_fst]
      by_cases he : (fieldIssues d fv).isEmpty
      · rw [if_pos he]
      · rw [if_neg he]
        cases hfe : fieldIssues d fv with
        | nil => rw [hfe] at he; simp at he
        | cons i0 rest =>
          have hi0 : i0 ∈ fieldIssues d fv := by rw [hfe]; exact List.mem_cons_self i0 rest
          have hprops := fieldIssues_issues d fv i0 hi0
          have hnot := h i0 (by
            rw [List.map_cons, List.flatten_cons]
            exact List.mem_append_left _ hi0)
          have hne : fv.1 ≠ f := by
            intro hcontra
            exact hnot ⟨hprops.2.1, hprops.1 ▸ hcontra⟩
          rw [jsGet_jsSet]
          rw [if_neg (fun hc => hne hc.symm)]
    calc jsGet (fields.foldl (valStep d) (valStep d (c, iss) fv)).1 f
        = jsGet (valStep d (c, iss) fv).1 f :=
          ih (valStep d (c, iss) fv).1 (valStep d (c, iss) fv).2 hsplit
      _ = jsGet c f := hcur

/-! ## Claims C3, C4 and C7 -/

/-- Counterexample to C3 as stated: the token `Constructor` lowercases to
`constructor`, which is a key of neither the (empty) terminology map nor the
static nine-pair spelling table, so the claim says it is kept unchanged with
no issue; but the plain-object read `spellingRules[lowerWord]` finds the
truthy inherited `Object.prototype.constructor`, so the program substitutes
the token and records a spelling issue. -/
theorem c3_counterexample :
    (∀ p ∈ spellingRules, p.1 ≠ jsToLower "Constructor")
    ∧ jsGet ([] : StrMap) (jsToLower "Constructor") = none
    ∧ (processWords [] "description" ["Constructor"]).1 ≠ ["Constructor"]
    ∧ (processWords [] "description" ["Constructor"]).2 ≠ [] := by
  decide

/-- C3 (amended): the word loop of `validateBomEntry` splits every non-empty
string field on whitespace and substitutes each token as follows: a token
whose lowercasing is a key of the terminology map becomes the mapped
canonical term; else a token whose lowercasing the plain-object read of the
static spelling table finds — an own key of the nine-pair table, or a truthy
inherited `Object.prototype` member (after lowercasing, `constructor` or
`__proto__`) — becomes the found value (for inherited members, the string it
coerces to); else it is kept; and the issues recorded are exactly one per
changed token, carrying the original token, its substitution and the field
name. -/
theorem c3_token_substitution (dict : StrMap) :
    (∀ entry : BomEntry,
      (validateBomEntry entry dict).issues =
        missingFieldIssues entry ++ (entry.map (fieldIssues dict)).flatten)
    ∧ (∀ (field : String) (ws : List String),
        (processWords dict field ws).1 = ws.map (specTokenSubst dict)
        ∧ (processWords dict field ws).2.map (fun i => (i.original, i.suggestion, i.field)) =
            ws.filterMap (fun w =>
              if specTokenSubst dict w ≠ w then some (w, specTokenSubst dict w, field)
              else none)) := by
  constructor
  · intro entry
    unfold validateBomEntry
    simp only []
    rw [valLoop_snd]
    rfl
  · intro field ws
    exact ⟨processWords_fst dict field ws, processWords_pairs dict field ws⟩

theorem entryTruthy_false_iff (entry : BomEntry) (f : String) :
    entryTruthy entry f = false ↔ (jsGet entry f = none ∨ jsGet entry f = some "") := by
  unfold entryTruthy
  cases h : jsGet entry f with
  | none => simp
  | some v =>
    simp only [h]
    constructor
    · intro hv
      right
      have : v = "" := by simpa using hv
      rw [this]
    · intro hv
      rcases hv with hv | hv
      · exact absurd hv (by simp)
      · have : v = "" := by simpa using hv
        simp [this]

theorem missing_count_off (entry : BomEntry) (L : List String) (f : String)
    (hf : f ∉ L) :
    (L.filterMap (fun g =>
        if entryTruthy entry g then none else some (missingFieldIssue g))).filter
      (fun i => i.type == "missing_field" && i.field == f) = [] := by
  rw [List.filter_eq_nil_iff]
  intro i hi
  rw [List.mem_filterMap] at hi
  rcases hi with ⟨g, hg, hgi⟩
  by_cases ht : entryTruthy entry g
  · rw [if_pos ht] at hgi
    simp at hgi
  · rw [if_neg ht] at hgi
    have hig : missingFieldIssue g = i := by simpa using hgi
    subst hig
    have : g ≠ f := fun hc => hf (hc ▸ hg)
    simp [missingFieldIssue, this]

theorem missing_count_mem (entry : BomEntry) (L : List String) (f : String)
    (hnd : L.Nodup) (hf : f ∈ L) :
    ((L.filterMap (fun g =>
        if entryTruthy entry g then none else some (missingFieldIssue g))).filter
      (fun i => i.type == "missing_field" && i.field == f)).length =
      if entryTruthy entry f then 0 else 1 := by
  induction L with
  | nil => simp at hf
  | cons g L ih =>
    rw [List.filterMap_cons]
    rcases List.mem_cons.mp hf with hfg | hfL
    · subst hfg
      have hnotin : f ∉ L := (List.nodup_cons.mp hnd).1
      by_cases ht : entryTruthy entry f
      · rw [if_pos ht, if_pos ht, missing_count_off entry L f hnotin]
        rfl
      · rw [if_neg ht, if_neg ht, List.filter_cons]
        rw [if_pos (by simp [missingFieldIssue])]
        rw [List.length_cons, missing_count_off entry L f hnotin]
        rfl
    · have hgf : g ≠ f := by
        intro hc
        subst hc
        exact (List.nodup_cons.mp hnd).1 hfL
      have ihr := ih (List.nodup_cons.mp hnd).2 hfL
      by_cases ht : entryTruthy entry g
      · rw [if_pos ht]
        exact ihr
      · rw [if_neg ht, List.filter_cons]
        rw [if_neg (by simp [missingFieldIssue, hgf])]
        exact ihr

/-- C4: `validateBomEntry` records exactly one `missing_field` issue, of
severity `critical` and with `autoCorrected = false`, for each required
field (`partNumber`, `partName`, `description`, `quantity`) that is absent
or empty in the entry, and none for a required field that is present and
non-empty; `missing_field` issues never name any other field. -/
theorem c4_missing_fields (entry : BomEntry) (dict : StrMap) :
    (∀ f ∈ requiredFields,
      ((validateBomEntry entry dict).issues.filter
          (fun i => i.type == "missing_field" && i.field == f)).length =
        (if jsGet entry f = none ∨ jsGet entry f = some "" then 1 else 0))
    ∧ (∀ i ∈ (validateBomEntry entry dict).issues, i.type = "missing_field" →
        i.severity = "critical" ∧ i.autoCorrected = false
        ∧ i.field ∈ requiredFields) := by
  have hiss : (validateBomEntry entry dict).issues =
      missingFieldIssues entry ++ (entry.map (fieldIssues dict)).flatten := by
    unfold validateBomEntry
    simp only []
    rw [valLoop_snd]
    rfl
  constructor
  · intro f hf
    rw [hiss, List.filter_append, List.length_append]
    have hloop : ((entry.map (fieldIssues dict)).flatten.filter
        (fun i => i.type == "missing_field" && i.field == f)) = [] := by
      rw [List.filter_eq_nil_iff]
      intro i hi
      rw [List.mem_flatten] at hi
      rcases hi with ⟨l, hl, hil⟩
      rw [List.mem_map] at hl
      rcases hl with ⟨fv, _, hfv⟩
      subst hfv
      rcases (fieldIssues_issues dict fv i hil).2.2 with ht | ht <;> simp [ht]
    rw [hloop, List.length_nil]
    unfold missingFieldIssues
    rw [missing_count_mem entry requiredFields f (by decide) hf]
    cases hb : entryTruthy entry f with
    | false =>
      rw [if_pos ((entryTruthy_false_iff entry f).mp hb)]
      simp
    | true =>
      have hcond : ¬(jsGet entry f = none ∨ jsGet entry f = some "") := fun hc => by
        have h2 := (entryTruthy_false_iff entry f).mpr hc
        rw [hb] at h2
        exact Bool.noConfusion h2
      rw [if_neg hcond]
      simp
  · intro i hi htype
    rw [hiss, List.mem_append] at hi
    rcases hi with hi | hi
    · unfold missingFieldIssues at hi
      rw [List.mem_filterMap] at hi
      rcases hi with ⟨g, hg, hgi⟩
      by_cases ht : entryTruthy entry g
      · rw [if_pos ht] at hgi
        simp at hgi
      · rw [if_neg ht] at hgi
        have hig : missingFieldIssue g = i := by simpa using hgi
        subst hig
        exact ⟨rfl, rfl, hg⟩
    · rw [List.mem_flatten] at hi
      rcases hi with ⟨l, hl, hil⟩
      rw [List.mem_map] at hl
      rcases hl with ⟨fv, _, hfv⟩
      subst hfv
      rcases (fieldIssues_issues dict fv i hil).2.2 with ht | ht <;>
        rw [ht] at htype <;> exact absurd htype (by decide)

/-- Witness for C4 at a concrete entry missing the `description` field. -/
theorem c4_witness :
    ((validateBomEntry [("partNumber", "PN1")] []).issues.filter
        (fun i => i.type == "missing_field" && i.field == "description")).length =
      (if jsGet [("partNumber", "PN1")] "description" = none
          ∨ jsGet [("partNumber", "PN1")] "description" = some "" then 1 else 0) :=
  (c4_missing_fields [("partNumber", "PN1")] []).1 "description" (by decide)

/-- C7: `validateBomEntry` leaves its input unchanged: the returned `entry`
component is the input itself, and the corrected object agrees with the
input on every field not named by any auto-corrected issue, so substitutions
appear only in the separate `corrected` object. -/
theorem c7_frame (entry : BomEntry) (dict : StrMap) :
    (validateBomEntry entry dict).entry = entry
    ∧ ∀ f : String,
        (∀ i ∈ (validateBomEntry entry dict).issues,
          ¬(i.autoCorrected = true ∧ i.field = f)) →
        jsGet (validateBomEntry entry dict).corrected f = jsGet entry f := by
  constructor
  · rfl
  · intro f h
    have hiss : (validateBomEntry entry dict).issues =
        missingFieldIssues entry ++ (entry.map (fieldIssues dict)).flatten := by
      unfold validateBomEntry
      simp only []
      rw [valLoop_snd]
      rfl
    have hloop : ∀ i ∈ (entry.map (fieldIssues dict)).flatten,
        ¬(i.autoCorrected = true ∧ i.field = f) := by
      intro i hi
      apply h
      rw [hiss]
      exact List.mem_append_right _ hi
    exact valLoop_fst dict entry entry [] f hloop

/-- Witness for C7: a concrete entry whose only issues are missing required
fields, none auto-corrected, so the corrected object keeps the value. -/
theorem c7_witness :
    jsGet (validateBomEntry [("partNumber", "PN1")] []).corrected "partNumber" =
      jsGet [("partNumber", "PN1")] "partNumber" :=
  (c7_frame [("partNumber", "PN1")] []).2 "partNumber" (by decide)

/-! ## Lemmas about the CSV helpers (claim C9) -/

theorem mk_data (s : String) : String.mk s.data = s := by
  cases s
  rfl

theorem data_singleton (c : Char) : (String.singleton c).data = [c] := rfl

theorem ne_empty_iff_data (s : String) : s ≠ "" ↔ s.data ≠ [] := by
  constructor
  · intro h hd
    exact h (String.ext hd)
  · intro h hs
    exact h (by rw [hs])

theorem splitChAux_no_sep (c : Char) (l acc : List Char)
    (h : ∀ x ∈ l, (x == c) = false) :
    splitChAux c l acc = [String.mk (acc.reverse ++ l)] := by
  induction l generalizing acc with
  | nil => simp [splitChAux]
  | cons x xs ih =>
    have hx : (x == c) = false := h x (List.mem_cons_self x xs)
    rw [splitChAux, if_neg (by simp [hx])]
    rw [ih (x :: acc) (fun y hy => h y (List.mem_cons_of_mem x hy))]
    rw [List.reverse_cons, List.append_assoc]
    rfl

theorem splitChAux_sep (c : Char) (l rest acc : List Char)
    (h : ∀ x ∈ l, (x == c) = false) :
    splitChAux c (l ++ c :: rest) acc =
      String.mk (acc.reverse ++ l) :: splitChAux c rest [] := by
  induction l generalizing acc with
  | nil =>
    rw [List.nil_append, splitChAux, if_pos (by simp), List.append_nil]
  | cons x xs ih =>
    have hx : (x == c) = false := h x (List.mem_cons_self x xs)
    rw [List.cons_append, splitChAux, if_neg (by simp [hx])]
    rw [ih (x :: acc) (fun y hy => h y (List.mem_cons_of_mem x hy))]
    rw [List.reverse_cons, List.append_assoc]
    rfl

theorem jsSplitCh_joinCh (c : Char) (ls : List String) (hne : ls ≠ [])
    (h : ∀ s ∈ ls, c ∉ s.data) :
    jsSplitCh c (joinCh c ls) = ls := by
  induction ls with
  | nil => exact absurd rfl hne
  | cons s tail ih =>
    cases tail with
    | nil =>
      unfold jsSplitCh joinCh
      rw [splitChAux_no_sep c s.data []
        (fun x hx => by
          have hne2 : x ≠ c := fun hc => h s (by simp) (hc ▸ hx)
          simp [hne2])]
      rw [List.reverse_nil, List.nil_append, mk_data]
    | cons s2 rest =>
      unfold jsSplitCh
      have hdata : (joinCh c (s :: s2 :: rest)).data =
          s.data ++ c :: (joinCh c (s2 :: rest)).data := by
        show (s ++ String.singleton c ++ joinCh c (s2 :: rest)).data = _
        rw [String.data_append, String.data_append, data_singleton,
          List.append_assoc]
        rfl
      rw [hdata]
      rw [splitChAux_sep c s.data (joinCh c (s2 :: rest)).data []
        (fun x hx => by
          have hne2 : x ≠ c := fun hc => h s (by simp) (hc ▸ hx)
          simp [hne2])]
      rw [List.reverse_nil, List.nil_append, mk_data]
      have := ih (by simp) (fun t ht => h t (List.mem_cons_of_mem s ht))
      unfold jsSplitCh at this
      rw [this]

theorem not_mem_joinCh (c c2 : Char) (ls : List String) (hcc : c2 ≠ c)
    (h : ∀ s ∈ ls, c2 ∉ s.data) :
    c2 ∉ (joinCh c ls).data := by
  induction ls with
  | nil => simp [joinCh]
  | cons s tail ih =>
    cases tail with
    | nil => exact h s (by simp)
    | cons s2 rest =>
      show c2 ∉ (s ++ String.singleton c ++ joinCh c (s2 :: rest)).data
      rw [String.data_append, String.data_append, data_singleton]
      intro hmem
      rcases List.mem_append.mp hmem with hmem | hmem
      · rcases List.mem_append.mp hmem with hmem | hmem
        · exact h s (by simp) hmem
        · exact hcc (by simpa using hmem)
      · exact ih (fun t ht => h t (List.mem_cons_of_mem s ht)) hmem

theorem dropWhile_cons_neg (x : Char) (t : List Char) (hx : isWsChar x = false) :
    (x :: t).dropWhile isWsChar = x :: t := by
  rw [List.dropWhile_cons, if_neg (by simp [hx])]

theorem head_not_ws_of_dropWhile_eq (l : List Char) (x : Char) (t : List Char)
    (hd : l.dropWhile isWsChar = l) (hl : l = x :: t) : isWsChar x = false := by
  subst hl
  cases hb : isWsChar x with
  | false => rfl
  | true =>
    rw [List.dropWhile_cons, if_pos (by simp [hb])] at hd
    have hlen := congrArg List.length hd
    rw [List.length_cons] at hlen
    have hle : (t.dropWhile isWsChar).length ≤ t.length :=
      (List.dropWhile_sublist isWsChar).length_le
    omega

theorem jsTrim_eq_self_iff (s : String) :
    jsTrim s = s ↔
      (s.data.dropWhile isWsChar = s.data
        ∧ s.data.reverse.dropWhile isWsChar = s.data.reverse) := by
  constructor
  · intro h
    have hd : ((s.data.dropWhile isWsChar).reverse.dropWhile isWsChar).reverse
        = s.data := by
      have h2 := congrArg String.data h
      simpa [jsTrim] using h2
    have h1 : s.data.dropWhile isWsChar = s.data := by
      apply (List.dropWhile_sublist isWsChar).eq_of_length_le
      have hlen := congrArg List.length hd
      rw [List.length_reverse] at hlen
      have hle2 : (((s.data.dropWhile isWsChar).reverse).dropWhile isWsChar).length
          ≤ ((s.data.dropWhile isWsChar).reverse).length :=
        (List.dropWhile_sublist isWsChar).length_le
      rw [List.length_reverse] at hle2
      omega
    refine ⟨h1, ?_⟩
    rw [h1] at hd
    have h3 := congrArg List.reverse hd
    rwa [List.reverse_reverse] at h3
  · intro h
    unfold jsTrim
    rw [h.1, h.2, List.reverse_reverse, mk_data]

theorem exists_head_not_ws (s : String) (hne : s ≠ "") (htf : jsTrim s = s) :
    ∃ x t, s.data = x :: t ∧ isWsChar x = false := by
  have hd := ((jsTrim_eq_self_iff s).mp htf).1
  cases hsd : s.data with
  | nil => exact absurd hsd ((ne_empty_iff_data s).mp hne)
  | cons x t =>
    exact ⟨x, t, rfl, head_not_ws_of_dropWhile_eq s.data x t hd hsd⟩

theorem exists_last_not_ws (s : String) (hne : s ≠ "") (htf : jsTrim s = s) :
    ∃ y t, s.data.reverse = y :: t ∧ isWsChar y = false := by
  have hd := ((jsTrim_eq_self_iff s).mp htf).2
  cases hsd : s.data.reverse with
  | nil =>
    have h0 : s.data = [] := by
      have h2 := congrArg List.reverse hsd
      rwa [List.reverse_reverse] at h2
    exact absurd h0 ((ne_empty_iff_data s).mp hne)
  | cons y t =>
    exact ⟨y, t, rfl, head_not_ws_of_dropWhile_eq s.data.reverse y t hd hsd⟩

theorem trim_fixed_of_ends (s : String) (x y : Char) (t t2 : List Char)
    (hx : s.data = x :: t) (hxw : isWsChar x = false)
    (hy : s.data.reverse = y :: t2) (hyw : isWsChar y = false) :
    jsTrim s = s := by
  apply (jsTrim_eq_self_iff s).mpr
  constructor
  · rw [hx]
    exact dropWhile_cons_neg x t hxw
  · rw [hy]
    exact dropWhile_cons_neg y t2 hyw

theorem joinCh_cons_cons_data (c : Char) (s s2 : String) (rest : List String) :
    (joinCh c (s :: s2 :: rest)).data =
      s.data ++ c :: (joinCh c (s2 :: rest)).data := by
  show (s ++ String.singleton c ++ joinCh c (s2 :: rest)).data = _
  rw [String.data_append, String.data_append, data_singleton, List.append_assoc]
  rfl

theorem joinCh_trim_fixed (c : Char) (hc : isWsChar c = false) (ls : List String)
    (hne : ls ≠ []) (h : ∀ s ∈ ls, s ≠ "" ∧ jsTrim s = s) :
    jsTrim (joinCh c ls) = joinCh c ls ∧ joinCh c ls ≠ "" := by
  induction ls with
  | nil => exact absurd rfl hne
  | cons s tail ih =>
    cases tail with
    | nil =>
      simp only [joinCh]
      exact ⟨(h s (by simp)).2, (h s (by simp)).1⟩
    | cons s2 rest =>
      obtain ⟨ihtf, ihne⟩ :=
        ih (by simp) (fun u hu => h u (List.mem_cons_of_mem s hu))
      obtain ⟨hsne, hstf⟩ := h s (by simp)
      obtain ⟨x, t, hxt, hxw⟩ := exists_head_not_ws s hsne hstf
      obtain ⟨y, t2, hyt, hyw⟩ :=
        exists_last_not_ws (joinCh c (s2 :: rest)) ihne ihtf
      have hdata := joinCh_cons_cons_data c s s2 rest
      have hhead : (joinCh c (s :: s2 :: rest)).data =
          x :: (t ++ c :: (joinCh c (s2 :: rest)).data) := by
        rw [hdata, hxt]
        rfl
      have hlast : (joinCh c (s :: s2 :: rest)).data.reverse =
          y :: (t2 ++ c :: s.data.reverse) := by
        rw [hdata, List.reverse_append, List.reverse_cons, hyt]
        simp
      constructor
      · exact trim_fixed_of_ends _ x y _ _ hhead hxw hlast hyw
      · apply (ne_empty_iff_data _).mpr
        rw [hhead]
        simp


theorem jsGet_self (e : StrMap) (p : String × String) (hp : p ∈ e)
    (hnd : (e.map Prod.fst).Nodup) : jsGet e p.1 = some p.2 := by
  induction e with
  | nil => simp at hp
  | cons q e ih =>
    rw [List.map_cons, List.nodup_cons] at hnd
    rcases List.mem_cons.mp hp with hq | hq
    · subst hq
      unfold jsGet
      rw [List.find?_cons, show (p.1 == p.1) = true by simp]
      rfl
    · have hne2 : (q.1 == p.1) = false := by
        have : q.1 ≠ p.1 := by
          intro hc
          exact hnd.1 (hc ▸ List.mem_map_of_mem Prod.fst hq)
        simp [this]
      unfold jsGet
      rw [List.find?_cons, hne2]
      exact ih hq hnd.2

theorem buildRow_eq (e : StrMap) (acc : BomEntry)
    (hnd : (e.map Prod.fst).Nodup) (hacc : ∀ p ∈ e, jsHas acc p.1 = false)
    (hpro : ∀ p ∈ e, p.1 ≠ "__proto__") :
    buildRow (e.map Prod.fst) (e.map Prod.snd) acc = acc ++ e := by
  induction e generalizing acc with
  | nil => simp [buildRow]
  | cons p e ih =>
    rw [List.map_cons, List.nodup_cons] at hnd
    rw [List.map_cons, List.map_cons, buildRow]
    have hset : jsSetProp acc p.1 p.2 = acc ++ [p] := by
      unfold jsSetProp jsSet
      rw [if_neg (by simp [hpro p (by simp)]), if_neg (by simp [hacc p (by simp)])]
    rw [hset]
    have hacc2 : ∀ q ∈ e, jsHas (acc ++ [p]) q.1 = false := by
      intro q hq
      unfold jsHas
      rw [List.any_append]
      have h1 : acc.any (fun r => r.1 == q.1) = false := hacc q (List.mem_cons_of_mem p hq)
      have h2 : (p.1 == q.1) = false := by
        have : p.1 ≠ q.1 := by
          intro hc
          exact hnd.1 (hc ▸ List.mem_map_of_mem Prod.fst hq)
        simp [this]
      rw [h1]
      simp [h2]
    rw [ih (acc ++ [p]) hnd.2 hacc2 (fun q hq => hpro q (List.mem_cons_of_mem p hq)),
      List.append_assoc]
    rfl

theorem row_cells (e : StrMap) (keys : List String) (hk : e.map Prod.fst = keys)
    (hnd : keys.Nodup) :
    keys.map (fun h => (jsGet e h).getD "") = e.map Prod.snd := by
  subst hk
  rw [List.map_map]
  apply List.map_congr_left
  intro p hp
  show (jsGet e p.1).getD "" = p.2
  rw [jsGet_self e p hp hnd]
  rfl

/-- Counterexample to C9 as stated, at two concrete inputs.  First, a
non-empty list of entries with no fields at all satisfies every per-key and
per-value hypothesis of the claim vacuously, but `generateCSV` renders it as
blank lines which `parseBoMFile` filters out, so the round trip returns
`[]`.  Second, an entry whose only key is `__proto__` (a non-empty trimmed
string free of commas and newlines) is dropped on re-parse, because the
assignment `entry[header] = value` to the inherited `__proto__` accessor is
a silent no-op, so the round trip returns a list of one empty entry. -/
theorem c9_counterexample :
    (parseBoMFile (generateCSV [([] : BomEntry)]) "bom.csv" = []
      ∧ ([([] : BomEntry)] : List BomEntry) ≠ [])
    ∧ (parseBoMFile (generateCSV [[("__proto__", "x")]]) "bom.csv" = [([] : BomEntry)]
      ∧ ([[("__proto__", "x")]] : List BomEntry) ≠ [([] : BomEntry)]) := by
  refine ⟨⟨rfl, by simp⟩, ⟨rfl, by simp⟩⟩

/-- C9 (amended): the round trip holds once the entries have at least one
key and no key is `__proto__`: for every non-empty list of entries that all
have the same non-empty key list, with distinct keys (JS object keys are
necessarily distinct) none of which is `__proto__` (whose inherited setter
makes the re-parsing store a no-op), and whose keys and values are non-empty
trimmed strings free of commas and newlines, parsing the generated CSV
returns the original entries. -/
theorem c9_roundtrip_amended (entries : List BomEntry) (keys : List String)
    (filename : String)
    (hne : entries ≠ [])
    (hkeys : ∀ e ∈ entries, e.map Prod.fst = keys)
    (hkeys0 : keys ≠ [])
    (hnd : keys.Nodup)
    (hpro : "__proto__" ∉ keys)
    (hcell : ∀ e ∈ entries, ∀ p ∈ e,
      (p.1 ≠ "" ∧ jsTrim p.1 = p.1 ∧ ',' ∉ p.1.data ∧ '\n' ∉ p.1.data)
      ∧ (p.2 ≠ "" ∧ jsTrim p.2 = p.2 ∧ ',' ∉ p.2.data ∧ '\n' ∉ p.2.data)) :
    parseBoMFile (generateCSV entries) filename = entries := by
  cases entries with
  | nil => exact absurd rfl hne
  | cons e0 rest =>
    have hk0 : e0.map Prod.fst = keys := hkeys e0 (by simp)
    have hkeycell : ∀ k ∈ keys,
        k ≠ "" ∧ jsTrim k = k ∧ ',' ∉ k.data ∧ '\n' ∉ k.data := by
      intro k hk
      rw [← hk0] at hk
      rcases List.mem_map.mp hk with ⟨p, hp, hpk⟩
      subst hpk
      exact (hcell e0 (by simp) p hp).1
    have hvalcell : ∀ e ∈ (e0 :: rest), ∀ v ∈ e.map Prod.snd,
        v ≠ "" ∧ jsTrim v = v ∧ ',' ∉ v.data ∧ '\n' ∉ v.data := by
      intro e he v hv
      rcases List.mem_map.mp hv with ⟨p, hp, hpv⟩
      subst hpv
      exact (hcell e he p hp).2
    have heno : ∀ e ∈ (e0 :: rest), e.map Prod.snd ≠ [] := by
      intro e he hc
      apply hkeys0
      rw [← hkeys e he, List.map_eq_nil_iff.mp hc]
      rfl
    have hrows : (e0 :: rest).map
        (fun e => joinCh ',' ((e0.map Prod.fst).map (fun h => (jsGet e h).getD ""))) =
        (e0 :: rest).map (fun e => joinCh ',' (e.map Prod.snd)) := by
      apply List.map_congr_left
      intro e he
      rw [hk0, row_cells e keys (hkeys e he) hnd]
    have hgen : generateCSV (e0 :: rest) =
        joinCh '\n' (joinCh ',' keys ::
          (e0 :: rest).map (fun e => joinCh ',' (e.map Prod.snd))) := by
      show joinCh '\n' (joinCh ',' (e0.map Prod.fst) ::
          (e0 :: rest).map
            (fun e => joinCh ',' ((e0.map Prod.fst).map (fun h => (jsGet e h).getD "")))) = _
      rw [hrows, hk0]
    have hcomma : isWsChar ',' = false := rfl
    have hheadline := joinCh_trim_fixed ',' hcomma keys hkeys0
      (fun k hk => ⟨(hkeycell k hk).1, (hkeycell k hk).2.1⟩)
    have hrowline : ∀ e ∈ (e0 :: rest),
        jsTrim (joinCh ',' (e.map Prod.snd)) = joinCh ',' (e.map Prod.snd)
        ∧ joinCh ',' (e.map Prod.snd) ≠ "" := by
      intro e he
      exact joinCh_trim_fixed ',' hcomma (e.map Prod.snd) (heno e he)
        (fun v hv => ⟨(hvalcell e he v hv).1, (hvalcell e he v hv).2.1⟩)
    have hnlheader : '\n' ∉ (joinCh ',' keys).data :=
      not_mem_joinCh ',' '\n' keys (by decide)
        (fun k hk => (hkeycell k hk).2.2.2)
    have hnlrow : ∀ e ∈ (e0 :: rest), '\n' ∉ (joinCh ',' (e.map Prod.snd)).data := by
      intro e he
      exact not_mem_joinCh ',' '\n' (e.map Prod.snd) (by decide)
        (fun v hv => (hvalcell e he v hv).2.2.2)
    have hsplitTop : jsSplitCh '\n'
        (joinCh '\n' (joinCh ',' keys ::
          (e0 :: rest).map (fun e => joinCh ',' (e.map Prod.snd)))) =
        joinCh ',' keys :: (e0 :: rest).map (fun e => joinCh ',' (e.map Prod.snd)) := by
      apply jsSplitCh_joinCh
      · simp
      · intro s hs
        rcases List.mem_cons.mp hs with hs | hs
        · subst hs
          exact hnlheader
        · rcases List.mem_map.mp hs with ⟨e, he, hse⟩
          subst hse
          exact hnlrow e he
    have hfilter : (joinCh ',' keys ::
        (e0 :: rest).map (fun e => joinCh ',' (e.map Prod.snd))).filter
          (fun line => jsTrim line != "") =
        joinCh ',' keys :: (e0 :: rest).map (fun e => joinCh ',' (e.map Prod.snd)) := by
      apply List.filter_eq_self.mpr
      intro line hline
      rcases List.mem_cons.mp hline with h | h
      · subst h
        rw [hheadline.1]
        simp [hheadline.2]
      · rcases List.mem_map.mp h with ⟨e, he, hle⟩
        subst hle
        rw [(hrowline e he).1]
        simp [(hrowline e he).2]
    have hheaders : (jsSplitCh ',' (joinCh ',' keys)).map jsTrim = keys := by
      rw [jsSplitCh_joinCh ',' keys hkeys0 (fun k hk => (hkeycell k hk).2.2.1)]
      calc keys.map jsTrim
          = keys.map id := List.map_congr_left (fun k hk => (hkeycell k hk).2.1)
        _ = keys := List.map_id keys
    have hrowparse : ∀ e ∈ (e0 :: rest),
        buildRow keys ((jsSplitCh ',' (joinCh ',' (e.map Prod.snd))).map jsTrim) [] = e := by
      intro e he
      rw [jsSplitCh_joinCh ',' (e.map Prod.snd) (heno e he)
        (fun v hv => (hvalcell e he v hv).2.2.1)]
      have hid : (e.map Prod.snd).map jsTrim = e.map Prod.snd := by
        calc (e.map Prod.snd).map jsTrim
            = (e.map Prod.snd).map id :=
              List.map_congr_left (fun v hv => (hvalcell e he v hv).2.1)
          _ = e.map Prod.snd := List.map_id _
      rw [hid, ← hkeys e he]
      rw [buildRow_eq e [] (by rw [hkeys e he]; exact hnd) (fun p hp => rfl)
        (fun p hp hc => hpro (by rw [← hkeys e he]; exact hc ▸ List.mem_map_of_mem Prod.fst hp))]
      rfl
    rw [hgen]
    unfold parseBoMFile
    rw [hsplitTop, hfilter]
    show ((e0 :: rest).map (fun e => joinCh ',' (e.map Prod.snd))).map
        (fun line => buildRow ((jsSplitCh ',' (joinCh ',' keys)).map jsTrim)
          ((jsSplitCh ',' line).map jsTrim) []) = e0 :: rest
    rw [hheaders, List.map_map]
    calc (e0 :: rest).map
          ((fun line => buildRow keys ((jsSplitCh ',' line).map jsTrim) []) ∘
            (fun e => joinCh ',' (e.map Prod.snd)))
        = (e0 :: rest).map id := List.map_congr_left (fun e he => hrowparse e he)
      _ = e0 :: rest := List.map_id _

/-- Witness for C9 (amended) at a concrete two-row, two-column table. -/
theorem c9_witness :
    parseBoMFile
        (generateCSV [[("a", "1"), ("b", "2")], [("a", "3"), ("b", "4")]])
        "bom.csv" =
      [[("a", "1"), ("b", "2")], [("a", "3"), ("b", "4")]] :=
  c9_roundtrip_amended
    [[("a", "1"), ("b", "2")], [("a", "3"), ("b", "4")]] ["a", "b"] "bom.csv"
    (by decide) (by decide) (by decide) (by decide) (by decide) (by decide)

end ValidateBom
